import Mathlib

/-!
Shallow embedding of the team/project/task management application
(GraphQL resolvers over a document store, plus the client dashboard
aggregation in `MyOverview.jsx`).

The repository ships two divergent resolver implementations:
* the "deep" variant (`src/unnamed/part_000`), modelled below with the
  suffix `000`;
* the "shallow" variant (`src/server/schemas/resolvers.js`), modelled
  with the suffix `Js`.

Document identifiers (`_id`) are modelled as `Nat`; a `DBState` carries
the four collections and a `nextId` counter standing for fresh `ObjectId`
generation by `create`.
-/

namespace WebPulse

/-- A task document: status, textual due date, optional assigned-user reference. -/
structure MTask where
  id : Nat
  taskStatus : String
  dateDue : String
  assignedUser : Option Nat
deriving DecidableEq

/-- A user document: identity fields, stored (hashed) password, and reference lists. -/
structure MUser where
  id : Nat
  email : String
  password : String
  firstName : String
  lastName : String
  projects : List Nat
  tasks : List Nat
  team : Option Nat
deriving DecidableEq

/-- A project document.  The `team` field is an array of team references
(the deep variant stores `team: [teamId]`, the shallow variant stores a
`teams` array); both are modelled by this single list-valued field. -/
structure MProject where
  id : Nat
  projectStatus : String
  dateDue : String
  tasks : List Nat
  team : List Nat
deriving DecidableEq

/-- A team document: member and project reference lists. -/
structure MTeam where
  id : Nat
  members : List Nat
  projects : List Nat
deriving DecidableEq

/-- The document store: four collections plus a fresh-id counter. -/
structure DBState where
  users : List MUser
  teams : List MTeam
  projects : List MProject
  tasks : List MTask
  nextId : Nat
deriving DecidableEq

/-- Error taxonomy of the resolver layer: the distinguished authentication
sentinel (`AuthenticationError` from `utils/auth`) versus a generic
operation-failure error (`new Error(message)`). -/
inductive ResolverError where
  | authentication
  | operationFailure (msg : String)
deriving DecidableEq

/-- `Model.findById` / `findOne({_id})`: first document with the given id. -/
def findUser (users : List MUser) (i : Nat) : Option MUser :=
  users.find? (fun u => u.id == i)

/-- `Team.findById`: first team document with the given id. -/
def findTeam (teams : List MTeam) (i : Nat) : Option MTeam :=
  teams.find? (fun t => t.id == i)

/-- `Project.findById`: first project document with the given id. -/
def findProject (projects : List MProject) (i : Nat) : Option MProject :=
  projects.find? (fun p => p.id == i)

/-- `Task.findById`: first task document with the given id. -/
def findTask (tasks : List MTask) (i : Nat) : Option MTask :=
  tasks.find? (fun t => t.id == i)

/-- `findOneAndUpdate` / `document.save()` persistence: rewrite the first
document satisfying the filter, leaving the rest of the collection as is. -/
def updateFirst (p : α → Bool) (f : α → α) : List α → List α
  | [] => []
  | x :: xs => if p x then f x :: xs else x :: updateFirst p f xs

/-- A successful login result: the user document and the signed credential. -/
structure Auth where
  user : MUser
  token : Nat
deriving DecidableEq

/-- Modelled from the spec: `signToken` from `utils/auth` (not under `src/`)
issues "a signed session credential embedding user identity"; modelled as a
credential carrying the user's id. -/
def signToken (u : MUser) : Nat := u.id

/-- The `login` mutation (identical in both resolver variants, up to
population): look the user up by email, fail with the authentication
sentinel when absent or when the salted-hash comparison rejects the
password, otherwise sign a token.  `isCorrectPassword` lives in the User
model (not under `src/`); modelled from the spec as an abstract salted-hash
comparison `compare storedHash candidate`. -/
def login (compare : String → String → Bool) (users : List MUser)
    (email password : String) : Except ResolverError Auth :=
  match users.find? (fun u => u.email == email) with
  | none => .error .authentication
  | some user =>
      if compare user.password password then .ok ⟨user, signToken user⟩
      else .error .authentication

/-- Claim C2: a `login` call whose email matches a user but whose password
fails the salted-hash comparison yields the authentication error and no user
object; the same authentication error results when no user has the email. -/
theorem login_wrong_password_auth_error (compare : String → String → Bool)
    (users : List MUser) (email password : String) :
    (∀ u, users.find? (fun v => v.email == email) = some u →
      compare u.password password = false →
      login compare users email password = Except.error ResolverError.authentication)
    ∧ (users.find? (fun v => v.email == email) = none →
      login compare users email password = Except.error ResolverError.authentication) := by
  constructor
  · intro u hu hcmp
    unfold login
    rw [hu]
    simp [hcmp]
  · intro hn
    unfold login
    rw [hn]

/-- Witness for C2: a concrete store with one user whose password check fails. -/
theorem login_wrong_password_auth_error_witness :
    login (fun _ _ => false) [⟨1, "a@b.c", "hashed", "Ada", "L", [], [], none⟩] "a@b.c" "pw"
      = Except.error ResolverError.authentication :=
  (login_wrong_password_auth_error (fun _ _ => false)
      [⟨1, "a@b.c", "hashed", "Ada", "L", [], [], none⟩] "a@b.c" "pw").1
    ⟨1, "a@b.c", "hashed", "Ada", "L", [], [], none⟩ (by decide) rfl

/-! ## The `tasks` query (deep variant) and its try/catch wrapper -/

/-- Body of the try block of the deep variant's `tasks` query: throw the
authentication error when no context user is present, otherwise return the
tasks whose `assignedUser` is the logged-in user. -/
def tasksQueryBody (contextUser : Option Nat) (tasks : List MTask) :
    Except ResolverError (List MTask) :=
  match contextUser with
  | none => .error .authentication
  | some uid => .ok (tasks.filter (fun t => t.assignedUser == some uid))

/-- The deep variant's `tasks` query: the whole body runs inside a
`try`/`catch` whose catch block re-throws every failure as
`new Error('Failed to fetch tasks')`. -/
def tasksQuery (contextUser : Option Nat) (tasks : List MTask) :
    Except ResolverError (List MTask) :=
  match tasksQueryBody contextUser tasks with
  | .ok v => .ok v
  | .error _ => .error (.operationFailure "Failed to fetch tasks")

/-- The shallow variant's `tasks` query: `Task.find({})` with no
authentication check at all. -/
def tasksQueryJs (tasks : List MTask) : Except ResolverError (List MTask) :=
  .ok tasks

/-- Counterexample to C5: an unauthenticated `tasks()` call on the deep
variant fails with the generic operation-failure error, not with the
distinguished authentication error. -/
theorem tasksQuery_wrapped_error_counterexample :
    tasksQuery none [] = Except.error (ResolverError.operationFailure "Failed to fetch tasks")
    ∧ tasksQuery none [] ≠ Except.error ResolverError.authentication := by
  constructor
  · rfl
  · simp [tasksQuery, tasksQueryBody]

/-- Claim C5 (amended): on the deep variant an unauthenticated `tasks()`
call fails, but with the generic `Failed to fetch tasks` operation-failure
error (its own authentication error is caught by the surrounding try/catch
and wrapped); an authenticated call returns exactly the tasks assigned to
the calling user.  The shallow variant performs no authentication check and
returns every task. -/
theorem tasksQuery_amended (cu : Option Nat) (ts : List MTask) :
    (cu = none →
      tasksQuery cu ts = Except.error (ResolverError.operationFailure "Failed to fetch tasks"))
    ∧ (∀ uid, cu = some uid →
        ∃ res, tasksQuery cu ts = Except.ok res ∧
          ∀ t, t ∈ res ↔ t ∈ ts ∧ t.assignedUser = some uid)
    ∧ tasksQueryJs ts = Except.ok ts := by
  refine ⟨?_, ?_, rfl⟩
  · intro h
    subst h
    rfl
  · intro uid h
    subst h
    refine ⟨ts.filter (fun t => t.assignedUser == some uid), rfl, ?_⟩
    intro t
    simp [List.mem_filter]

/-- Witness for C5: the amended theorem applied at an authenticated context
with one matching task. -/
theorem tasksQuery_amended_witness :
    ∃ res, tasksQuery (some 5) [⟨1, "Created", "Jan 1 2025", some 5⟩] = Except.ok res ∧
      ∀ t, t ∈ res ↔ t ∈ [(⟨1, "Created", "Jan 1 2025", some 5⟩ : MTask)]
        ∧ t.assignedUser = some 5 :=
  (tasksQuery_amended (some 5) [⟨1, "Created", "Jan 1 2025", some 5⟩]).2.1 5 rfl

/-! ## Deletion mutations -/

/-- `removeUser`: `User.findOneAndDelete({_id: userId})` — return the first
matching document and remove it, or return null leaving the store unchanged. -/
def removeUser (st : DBState) (userId : Nat) : Option MUser × DBState :=
  match findUser st.users userId with
  | none => (none, st)
  | some u => (some u, { st with users := st.users.eraseP (fun v => v.id == userId) })

/-- `removeProject`: `Project.findOneAndDelete({_id: projectId})`. -/
def removeProject (st : DBState) (projectId : Nat) : Option MProject × DBState :=
  match findProject st.projects projectId with
  | none => (none, st)
  | some p => (some p, { st with projects := st.projects.eraseP (fun q => q.id == projectId) })

/-- `removeTask`: `Task.findOneAndDelete({_id: taskId})` (identical in both
resolver variants). -/
def removeTask (st : DBState) (taskId : Nat) : Option MTask × DBState :=
  match findTask st.tasks taskId with
  | none => (none, st)
  | some t => (some t, { st with tasks := st.tasks.eraseP (fun u => u.id == taskId) })

/-- Claim C10: deleting a nonexistent user, project, or task returns a null
result, raises no error, and leaves the store unchanged. -/
theorem remove_nonexistent_noop (st : DBState) (i : Nat) :
    (findUser st.users i = none → removeUser st i = (none, st))
    ∧ (findProject st.projects i = none → removeProject st i = (none, st))
    ∧ (findTask st.tasks i = none → removeTask st i = (none, st)) := by
  refine ⟨?_, ?_, ?_⟩ <;> intro h
  · unfold removeUser
    rw [h]
  · unfold removeProject
    rw [h]
  · unfold removeTask
    rw [h]

/-- Witness for C10: deleting id 7 from an empty store is a no-op for all
three mutations. -/
theorem remove_nonexistent_noop_witness :
    removeUser ⟨[], [], [], [], 0⟩ 7 = (none, ⟨[], [], [], [], 0⟩)
    ∧ removeProject ⟨[], [], [], [], 0⟩ 7 = (none, ⟨[], [], [], [], 0⟩)
    ∧ removeTask ⟨[], [], [], [], 0⟩ 7 = (none, ⟨[], [], [], [], 0⟩) :=
  ⟨(remove_nonexistent_noop ⟨[], [], [], [], 0⟩ 7).1 rfl,
   (remove_nonexistent_noop ⟨[], [], [], [], 0⟩ 7).2.1 rfl,
   (remove_nonexistent_noop ⟨[], [], [], [], 0⟩ 7).2.2 rfl⟩

/-! ## `updateUser` -/

/-- The GraphQL `updateUser` input object: optional patches of the user's
scalar fields. -/
structure UserPatch where
  email : Option String
  password : Option String
  firstName : Option String
  lastName : Option String
deriving DecidableEq

/-- Applying a `$set`-style patch to a user document: present fields are
overwritten, absent fields are kept. -/
def applyUserPatch (u : MUser) (p : UserPatch) : MUser :=
  { u with
    email := p.email.getD u.email
    password := p.password.getD u.password
    firstName := p.firstName.getD u.firstName
    lastName := p.lastName.getD u.lastName }

/-- The deep variant's password pre-processing: a supplied password is
replaced by its bcrypt hash before storage (`bcrypt.hash` is modelled as the
abstract `hash` argument). -/
def hashPatch (hash : String → String) (input : UserPatch) : UserPatch :=
  match input.password with
  | some pw => { input with password := some (hash pw) }
  | none => input

/-- The deep variant's `updateUser`: re-hash a supplied password, then
`User.findOneAndUpdate({_id: userId}, input)` WITHOUT `new: true`, which
persists the patch but returns the pre-update document (or null). -/
def updateUser000 (hash : String → String) (st : DBState) (userId : Nat)
    (input : UserPatch) : Option MUser × DBState :=
  let input' := hashPatch hash input
  match findUser st.users userId with
  | none => (none, st)
  | some old =>
      (some old,
       { st with users :=
          updateFirst (fun u => u.id == userId) (fun u => applyUserPatch u input') st.users })

/-- The shallow variant's `updateUser`:
`User.findOneAndUpdate({_id: userId}, {$set: input}, {new: true})` — no
re-hashing, and the post-update document is returned. -/
def updateUserJs (st : DBState) (userId : Nat) (input : UserPatch) :
    Option MUser × DBState :=
  match findUser st.users userId with
  | none => (none, st)
  | some old =>
      (some (applyUserPatch old input),
       { st with users :=
          updateFirst (fun u => u.id == userId) (fun u => applyUserPatch u input) st.users })

/-- `find?` after `updateFirst` with the same filter: the first match is
rewritten by `f`, provided `f` keeps the filter satisfied. -/
theorem find?_updateFirst (p : α → Bool) (f : α → α)
    (hf : ∀ a, p a = true → p (f a) = true) (l : List α) :
    (updateFirst p f l).find? p = (l.find? p).map f := by
  induction l with
  | nil => rfl
  | cons x xs ih =>
      by_cases hx : p x = true
      · simp [updateFirst, hx, List.find?, hf x hx]
      · simp only [Bool.not_eq_true] at hx
        simp [updateFirst, hx, List.find?, ih]

/-- Claim C9: on an existing user the re-hashing variant returns the
pre-update document while persisting the (re-hashed) patch, whereas the
other variant returns the post-update document it persists. -/
theorem updateUser_return_semantics (hash : String → String) (st : DBState)
    (userId : Nat) (input : UserPatch) (old : MUser)
    (h : findUser st.users userId = some old) :
    (updateUser000 hash st userId input).1 = some old
    ∧ findUser (updateUser000 hash st userId input).2.users userId
        = some (applyUserPatch old (hashPatch hash input))
    ∧ (updateUserJs st userId input).1 = some (applyUserPatch old input)
    ∧ findUser (updateUserJs st userId input).2.users userId
        = some (applyUserPatch old input) := by
  have hid : ∀ q : UserPatch, ∀ u : MUser,
      (u.id == userId) = true → ((applyUserPatch u q).id == userId) = true := by
    intro q u hu
    simpa [applyUserPatch] using hu
  have h000 : updateUser000 hash st userId input
      = (some old, { st with users := updateFirst (fun u => u.id == userId) (fun u => applyUserPatch u (hashPatch hash input)) st.users }) := by
    unfold updateUser000
    rw [h]
  have hJs : updateUserJs st userId input
      = (some (applyUserPatch old input), { st with users := updateFirst (fun u => u.id == userId) (fun u => applyUserPatch u input) st.users }) := by
    unfold updateUserJs
    rw [h]
  refine ⟨?_, ?_, ?_, ?_⟩
  · rw [h000]
  · rw [h000]
    unfold findUser
    rw [find?_updateFirst _ _ (hid (hashPatch hash input))]
    unfold findUser at h
    rw [h]
    rfl
  · rw [hJs]
  · rw [hJs]
    unfold findUser
    rw [find?_updateFirst _ _ (hid input)]
    unfold findUser at h
    rw [h]
    rfl

/-- Witness for C9: a concrete store with one user and a password patch. -/
theorem updateUser_return_semantics_witness :
    (updateUser000 (fun s => s ++ "#") ⟨[⟨1, "a@b.c", "old", "Ada", "L", [], [], none⟩], [], [], [], 2⟩
        1 ⟨none, some "new", none, none⟩).1 = some ⟨1, "a@b.c", "old", "Ada", "L", [], [], none⟩
    ∧ findUser (updateUser000 (fun s => s ++ "#")
        ⟨[⟨1, "a@b.c", "old", "Ada", "L", [], [], none⟩], [], [], [], 2⟩
        1 ⟨none, some "new", none, none⟩).2.users 1
        = some (applyUserPatch ⟨1, "a@b.c", "old", "Ada", "L", [], [], none⟩
            (hashPatch (fun s => s ++ "#") ⟨none, some "new", none, none⟩))
    ∧ (updateUserJs ⟨[⟨1, "a@b.c", "old", "Ada", "L", [], [], none⟩], [], [], [], 2⟩
        1 ⟨none, some "new", none, none⟩).1
        = some (applyUserPatch ⟨1, "a@b.c", "old", "Ada", "L", [], [], none⟩
            ⟨none, some "new", none, none⟩)
    ∧ findUser (updateUserJs ⟨[⟨1, "a@b.c", "old", "Ada", "L", [], [], none⟩], [], [], [], 2⟩
        1 ⟨none, some "new", none, none⟩).2.users 1
        = some (applyUserPatch ⟨1, "a@b.c", "old", "Ada", "L", [], [], none⟩
            ⟨none, some "new", none, none⟩) :=
  updateUser_return_semantics (fun s => s ++ "#")
    ⟨[⟨1, "a@b.c", "old", "Ada", "L", [], [], none⟩], [], [], [], 2⟩
    1 ⟨none, some "new", none, none⟩ ⟨1, "a@b.c", "old", "Ada", "L", [], [], none⟩ (by decide)

/-! ## `updateTask` -/

/-- The GraphQL `updateTask` input object: optional patches of the task's
fields, including (possibly) an assignee. -/
structure TaskPatch where
  taskStatus : Option String
  dateDue : Option String
  assignedUser : Option Nat
deriving DecidableEq

/-- Applying a `$set`-style patch to a task document. -/
def applyTaskPatch (t : MTask) (p : TaskPatch) : MTask :=
  { t with
    taskStatus := p.taskStatus.getD t.taskStatus
    dateDue := p.dateDue.getD t.dateDue
    assignedUser := match p.assignedUser with | some a => some a | none => t.assignedUser }

/-- The deep variant's `updateTask`: look the task up, then
`findOneAndUpdate` with `$set: {...input, assignedUser: existing.assignedUser}`
and `new: true` — the spread is overridden so the original assignee is
force-preserved; a missing task throws, and the catch block re-throws
`new Error("Error updating task")`. -/
def updateTask000 (st : DBState) (taskId : Nat) (input : TaskPatch) :
    Except ResolverError (MTask × DBState) :=
  match findTask st.tasks taskId with
  | none => .error (.operationFailure "Error updating task")
  | some existing =>
      .ok ({ applyTaskPatch existing input with assignedUser := existing.assignedUser },
        { st with tasks := updateFirst (fun t => t.id == taskId) (fun t => { applyTaskPatch t input with assignedUser := existing.assignedUser }) st.tasks })

/-- The shallow variant's `updateTask`:
`Task.findOneAndUpdate({_id: taskId}, {$set: input}, {new: true})` — the
patch is applied as supplied, with no assignee preservation. -/
def updateTaskJs (st : DBState) (taskId : Nat) (input : TaskPatch) :
    Option MTask × DBState :=
  match findTask st.tasks taskId with
  | none => (none, st)
  | some existing =>
      (some (applyTaskPatch existing input),
        { st with tasks := updateFirst (fun t => t.id == taskId) (fun t => applyTaskPatch t input) st.tasks })

/-- Counterexample to C3: on the shallow variant, a patch that supplies an
assignee overwrites the stored assignee (pre-update assignee `some 5`
becomes `some 7`). -/
theorem updateTask_assignee_overwrite_counterexample :
    (findTask ((updateTaskJs ⟨[], [], [], [⟨0, "Created", "Jan 1 2025", some 5⟩], 1⟩ 0 ⟨none, none, some 7⟩).2).tasks 0).map (fun t => t.assignedUser) = some (some 7)
    ∧ (some (some 7) : Option (Option Nat)) ≠ some (some 5) := by
  constructor
  · decide
  · decide

/-- Claim C3 (amended): on an existing task the deep variant's `updateTask`
force-preserves the original assignee whether or not the patch supplies one;
the shallow variant preserves the assignee exactly when the patch omits the
assignee field. -/
theorem updateTask_assignee_preserved_amended (st : DBState) (taskId : Nat)
    (input : TaskPatch) (existing : MTask)
    (h : findTask st.tasks taskId = some existing) :
    (∃ r st', updateTask000 st taskId input = Except.ok (r, st')
      ∧ r.assignedUser = existing.assignedUser
      ∧ (findTask st'.tasks taskId).map (fun t => t.assignedUser) = some existing.assignedUser)
    ∧ (input.assignedUser = none →
      (findTask (updateTaskJs st taskId input).2.tasks taskId).map (fun t => t.assignedUser)
        = some existing.assignedUser) := by
  have hid : ∀ f : MTask → MTask, (∀ t : MTask, (f t).id = t.id) →
      ∀ t : MTask, (t.id == taskId) = true → ((f t).id == taskId) = true := by
    intro f hf t ht
    rw [hf t]
    exact ht
  constructor
  · have h000 : updateTask000 st taskId input
        = Except.ok ({ applyTaskPatch existing input with assignedUser := existing.assignedUser }, { st with tasks := updateFirst (fun t => t.id == taskId) (fun t => { applyTaskPatch t input with assignedUser := existing.assignedUser }) st.tasks }) := by
      unfold updateTask000
      rw [h]
    refine ⟨_, _, h000, rfl, ?_⟩
    unfold findTask
    rw [find?_updateFirst _ _ (hid _ (fun t => by simp [applyTaskPatch]))]
    unfold findTask at h
    rw [h]
    rfl
  · intro hnone
    have hJs : updateTaskJs st taskId input
        = (some (applyTaskPatch existing input), { st with tasks := updateFirst (fun t => t.id == taskId) (fun t => applyTaskPatch t input) st.tasks }) := by
      unfold updateTaskJs
      rw [h]
    rw [hJs]
    unfold findTask
    rw [find?_updateFirst _ _ (hid _ (fun t => by simp [applyTaskPatch]))]
    unfold findTask at h
    rw [h]
    simp [applyTaskPatch, hnone]

/-- Witness for C3: the amended theorem applied to a concrete store with a
patch that supplies a new assignee (deep variant still preserves `some 5`). -/
theorem updateTask_assignee_preserved_amended_witness :
    (∃ r st', updateTask000 ⟨[], [], [], [⟨0, "Created", "Jan 1 2025", some 5⟩], 1⟩ 0 ⟨none, none, some 7⟩ = Except.ok (r, st')
      ∧ r.assignedUser = (⟨0, "Created", "Jan 1 2025", some 5⟩ : MTask).assignedUser
      ∧ (findTask st'.tasks 0).map (fun t => t.assignedUser) = some (⟨0, "Created", "Jan 1 2025", some 5⟩ : MTask).assignedUser)
    ∧ ((⟨none, none, some 7⟩ : TaskPatch).assignedUser = none →
      (findTask (updateTaskJs ⟨[], [], [], [⟨0, "Created", "Jan 1 2025", some 5⟩], 1⟩ 0 ⟨none, none, some 7⟩).2.tasks 0).map (fun t => t.assignedUser)
        = some (⟨0, "Created", "Jan 1 2025", some 5⟩ : MTask).assignedUser) :=
  updateTask_assignee_preserved_amended ⟨[], [], [], [⟨0, "Created", "Jan 1 2025", some 5⟩], 1⟩
    0 ⟨none, none, some 7⟩ ⟨0, "Created", "Jan 1 2025", some 5⟩ (by decide)

/-! ## `addTask` -/

/-- The GraphQL `addTask` input object. -/
structure TaskInput where
  taskStatus : String
  dateDue : String
  assignedUserId : Nat
deriving DecidableEq

/-- `Task.create(input)`: a fresh task document with the next free id; the
input's `assignedUserId` is not a schema field of the Task document, so the
stored `assignedUser` starts out unset. -/
def newTask (st : DBState) (input : TaskInput) : MTask :=
  { id := st.nextId, taskStatus := input.taskStatus, dateDue := input.dateDue, assignedUser := none }

/-- State after `Task.create(input)`. -/
def createTask (st : DBState) (input : TaskInput) : DBState :=
  { st with tasks := st.tasks ++ [newTask st input], nextId := st.nextId + 1 }

/-- The deep variant's `addTask`: create the task, push it onto the parent
project's task list, set the task's assignee, push the task onto the
assigned user's task list, and return the task merged with its assignee;
a missing project or assigned user throws inside the try block and the
catch re-throws a generic operation-failure error. -/
def addTask000 (st : DBState) (projectId : Nat) (input : TaskInput) :
    Except ResolverError (MTask × DBState) :=
  let taskId := st.nextId
  let st1 := createTask st input
  match findProject st1.projects projectId with
  | none => .error (.operationFailure "Failed to create task: Project not found")
  | some _ =>
      let st2 := { st1 with projects := updateFirst (fun q => q.id == projectId) (fun q => { q with tasks := q.tasks ++ [taskId] }) st1.projects }
      match findUser st2.users input.assignedUserId with
      | none => .error (.operationFailure "Failed to create task: Assigned user not found")
      | some assignedUser =>
          let st3 := { st2 with tasks := updateFirst (fun t => t.id == taskId) (fun t => { t with assignedUser := some input.assignedUserId }) st2.tasks }
          let st4 := { st3 with users := updateFirst (fun v => v.id == input.assignedUserId) (fun v => { v with tasks := v.tasks ++ [taskId] }) st3.users }
          .ok ({ newTask st input with assignedUser := some assignedUser.id }, st4)

/-- The shallow variant's `addTask`: create the task and push it onto the
parent project's task list, then merely FETCH the assigned user for the
merged return value — neither the task document's `assignedUser` nor the
user's task list is written.  (A missing project makes the untried
`project.tasks.push` throw a TypeError.) -/
def addTaskJs (st : DBState) (projectId : Nat) (input : TaskInput) :
    Except ResolverError (MTask × DBState) :=
  let taskId := st.nextId
  let st1 := createTask st input
  match findProject st1.projects projectId with
  | none => .error (.operationFailure "TypeError: cannot read tasks of null")
  | some _ =>
      let st2 := { st1 with projects := updateFirst (fun q => q.id == projectId) (fun q => { q with tasks := q.tasks ++ [taskId] }) st1.projects }
      .ok ({ newTask st input with assignedUser := (findUser st2.users input.assignedUserId).map (fun v => v.id) }, st2)

/-- Counterexample to C1: a successful `addTask` on the shallow variant
(existing project 0 and assigned user 1) leaves the assigned user's task
list without the new task id 2 — it appears 0 times, not exactly once. -/
theorem addTask_user_list_counterexample :
    ((addTaskJs ⟨[⟨1, "a@b.c", "h", "Ada", "L", [], [], none⟩], [], [⟨0, "Created", "Jan 1 2025", [], []⟩], [], 2⟩ 0 ⟨"Created", "Jan 2 2025", 1⟩).toOption.bind (fun r => findUser r.2.users 1)).map (fun v => v.tasks.count 2) = some 0 := by
  decide

/-- Claim C1 (amended): after a successful `addTask` the new task id appears
exactly once in the parent project's task list in both variants; the deep
variant also makes it appear exactly once in the assigned user's task list,
while the shallow variant leaves the user collection untouched. -/
theorem addTask_taskId_once_amended (st : DBState) (projectId : Nat)
    (input : TaskInput) (p : MProject) (u : MUser)
    (hp : findProject st.projects projectId = some p)
    (hu : findUser st.users input.assignedUserId = some u)
    (hfp : st.nextId ∉ p.tasks) (hfu : st.nextId ∉ u.tasks) :
    (∃ r st', addTask000 st projectId input = Except.ok (r, st')
      ∧ (findProject st'.projects projectId).map (fun q => q.tasks.count st.nextId) = some 1
      ∧ (findUser st'.users input.assignedUserId).map (fun v => v.tasks.count st.nextId) = some 1)
    ∧ (∃ r st', addTaskJs st projectId input = Except.ok (r, st')
      ∧ (findProject st'.projects projectId).map (fun q => q.tasks.count st.nextId) = some 1
      ∧ st'.users = st.users) := by
  have hpid : ∀ q : MProject, (q.id == projectId) = true →
      (({ q with tasks := q.tasks ++ [st.nextId] } : MProject).id == projectId) = true := by
    intro q hq
    exact hq
  have huid : ∀ v : MUser, (v.id == input.assignedUserId) = true →
      (({ v with tasks := v.tasks ++ [st.nextId] } : MUser).id == input.assignedUserId) = true := by
    intro v hv
    exact hv
  have hproj : findProject (updateFirst (fun q => q.id == projectId) (fun q => { q with tasks := q.tasks ++ [st.nextId] }) st.projects) projectId = some { p with tasks := p.tasks ++ [st.nextId] } := by
    unfold findProject
    rw [find?_updateFirst _ _ hpid]
    unfold findProject at hp
    rw [hp]
    rfl
  have huser : findUser (updateFirst (fun v => v.id == input.assignedUserId) (fun v => { v with tasks := v.tasks ++ [st.nextId] }) st.users) input.assignedUserId = some { u with tasks := u.tasks ++ [st.nextId] } := by
    unfold findUser
    rw [find?_updateFirst _ _ huid]
    unfold findUser at hu
    rw [hu]
    rfl
  have hcountp : (p.tasks ++ [st.nextId]).count st.nextId = 1 := by
    rw [List.count_append, List.count_eq_zero.mpr hfp]
    simp
  have hcountu : (u.tasks ++ [st.nextId]).count st.nextId = 1 := by
    rw [List.count_append, List.count_eq_zero.mpr hfu]
    simp
  constructor
  · have h000 : addTask000 st projectId input
        = Except.ok ({ newTask st input with assignedUser := some u.id }, { users := updateFirst (fun v => v.id == input.assignedUserId) (fun v => { v with tasks := v.tasks ++ [st.nextId] }) st.users, teams := st.teams, projects := updateFirst (fun q => q.id == projectId) (fun q => { q with tasks := q.tasks ++ [st.nextId] }) st.projects, tasks := updateFirst (fun t => t.id == st.nextId) (fun t => { t with assignedUser := some input.assignedUserId }) (st.tasks ++ [newTask st input]), nextId := st.nextId + 1 }) := by
      simp only [addTask000, createTask, hp, hu]
    refine ⟨_, _, h000, ?_, ?_⟩
    · rw [hproj]
      simp [hcountp]
    · rw [huser]
      simp [hcountu]
  · have hJs : addTaskJs st projectId input
        = Except.ok ({ newTask st input with assignedUser := some u.id }, { users := st.users, teams := st.teams, projects := updateFirst (fun q => q.id == projectId) (fun q => { q with tasks := q.tasks ++ [st.nextId] }) st.projects, tasks := st.tasks ++ [newTask st input], nextId := st.nextId + 1 }) := by
      simp only [addTaskJs, createTask, hp, hu]
      rfl
    refine ⟨_, _, hJs, ?_, rfl⟩
    rw [hproj]
    simp [hcountp]

/-- Witness for C1: the amended theorem applied to a concrete store with
project 0, user 1 and fresh id 2. -/
theorem addTask_taskId_once_amended_witness :
    (∃ r st', addTask000 ⟨[⟨1, "a@b.c", "h", "Ada", "L", [], [], none⟩], [], [⟨0, "Created", "Jan 1 2025", [], []⟩], [], 2⟩ 0 ⟨"Created", "Jan 2 2025", 1⟩ = Except.ok (r, st')
      ∧ (findProject st'.projects 0).map (fun q => q.tasks.count 2) = some 1
      ∧ (findUser st'.users 1).map (fun v => v.tasks.count 2) = some 1)
    ∧ (∃ r st', addTaskJs ⟨[⟨1, "a@b.c", "h", "Ada", "L", [], [], none⟩], [], [⟨0, "Created", "Jan 1 2025", [], []⟩], [], 2⟩ 0 ⟨"Created", "Jan 2 2025", 1⟩ = Except.ok (r, st')
      ∧ (findProject st'.projects 0).map (fun q => q.tasks.count 2) = some 1
      ∧ st'.users = [⟨1, "a@b.c", "h", "Ada", "L", [], [], none⟩]) :=
  addTask_taskId_once_amended
    ⟨[⟨1, "a@b.c", "h", "Ada", "L", [], [], none⟩], [], [⟨0, "Created", "Jan 1 2025", [], []⟩], [], 2⟩
    0 ⟨"Created", "Jan 2 2025", 1⟩ ⟨0, "Created", "Jan 1 2025", [], []⟩
    ⟨1, "a@b.c", "h", "Ada", "L", [], [], none⟩ (by decide) (by decide) (by decide) (by decide)

/-! ## `addProject` -/

/-- The deep variant's `addProject` input: project fields plus an optional
single team reference.  (A present `ObjectId` is truthy, so the source's
`if (teamId)` test is modelled as presence of the option.) -/
structure ProjectInput000 where
  projectStatus : String
  dateDue : String
  teamId : Option Nat
deriving DecidableEq

/-- The shallow variant's `addProject` input: project fields plus arrays of
team and task references. -/
structure ProjectInputJs where
  projectStatus : String
  dateDue : String
  teamIds : List Nat
  taskIds : List Nat
deriving DecidableEq

/-- The deep variant's `addProject`: create the project with
`team: [teamId]`, push it onto the team's project list, and push it onto
the project list of every member of that team (`User.find({_id: {$in:
team.members}})` followed by per-user saves); a missing team throws inside
the try block and the catch re-throws a generic operation-failure error. -/
def addProject000 (st : DBState) (input : ProjectInput000) :
    Except ResolverError (Nat × DBState) :=
  let pid := st.nextId
  let proj : MProject := { id := pid, projectStatus := input.projectStatus, dateDue := input.dateDue, tasks := [], team := input.teamId.toList }
  let st1 : DBState := { st with projects := st.projects ++ [proj], nextId := st.nextId + 1 }
  match input.teamId with
  | none => .ok (pid, st1)
  | some tid =>
      match findTeam st1.teams tid with
      | none => .error (.operationFailure "Failed to create project: Team not found")
      | some team =>
          let st2 := { st1 with teams := updateFirst (fun t => t.id == tid) (fun t => { t with projects := t.projects ++ [pid] }) st1.teams }
          let st3 := { st2 with users := st2.users.map (fun v => if v.id ∈ team.members then { v with projects := v.projects ++ [pid] } else v) }
          .ok (pid, st3)

/-- The shallow variant's `addProject`: create the project, fetch the teams
and tasks named by the input arrays, store their references on the project
document itself, and save — the team documents and the member users are
never written. -/
def addProjectJs (st : DBState) (input : ProjectInputJs) :
    Except ResolverError (Nat × DBState) :=
  let pid := st.nextId
  let teams := st.teams.filter (fun t => input.teamIds.contains t.id)
  let tasks := st.tasks.filter (fun t => input.taskIds.contains t.id)
  let proj : MProject := { id := pid, projectStatus := input.projectStatus, dateDue := input.dateDue, tasks := tasks.map (fun t => t.id), team := teams.map (fun t => t.id) }
  .ok (pid, { st with projects := st.projects ++ [proj], nextId := st.nextId + 1 })

/-- Counterexample to C6: a successful `addProject` on the shallow variant
with an existing team 0 having members 1 and 2 leaves the new project id 3
absent from the team's project list and from both members' project lists. -/
theorem addProject_no_propagation_counterexample :
    ((addProjectJs ⟨[⟨1, "a@b.c", "h", "Ada", "L", [], [], some 0⟩, ⟨2, "c@d.e", "h", "Bea", "M", [], [], some 0⟩], [⟨0, [1, 2], []⟩], [], [], 3⟩ ⟨"Created", "Jan 1 2025", [0], []⟩).toOption.bind (fun r => findTeam r.2.teams 0)).map (fun t => t.projects.contains 3) = some false
    ∧ ((addProjectJs ⟨[⟨1, "a@b.c", "h", "Ada", "L", [], [], some 0⟩, ⟨2, "c@d.e", "h", "Bea", "M", [], [], some 0⟩], [⟨0, [1, 2], []⟩], [], [], 3⟩ ⟨"Created", "Jan 1 2025", [0], []⟩).toOption.bind (fun r => findUser r.2.users 1)).map (fun v => v.projects.contains 3) = some false
    ∧ ((addProjectJs ⟨[⟨1, "a@b.c", "h", "Ada", "L", [], [], some 0⟩, ⟨2, "c@d.e", "h", "Bea", "M", [], [], some 0⟩], [⟨0, [1, 2], []⟩], [], [], 3⟩ ⟨"Created", "Jan 1 2025", [0], []⟩).toOption.bind (fun r => findUser r.2.users 2)).map (fun v => v.projects.contains 3) = some false := by
  refine ⟨?_, ?_, ?_⟩ <;> decide

/-- Claim C6 (amended): after a successful `addProject` with an existing
team, the deep variant puts the new project id into the team's project list
and into the project list of every member user of that team; the shallow
variant leaves the team and user collections untouched. -/
theorem addProject_propagation_amended (st : DBState) (input : ProjectInput000)
    (inputJs : ProjectInputJs) (tid : Nat) (team : MTeam)
    (hin : input.teamId = some tid)
    (ht : findTeam st.teams tid = some team) :
    (∃ st', addProject000 st input = Except.ok (st.nextId, st')
      ∧ (∃ t', findTeam st'.teams tid = some t' ∧ st.nextId ∈ t'.projects)
      ∧ (∀ v ∈ st'.users, v.id ∈ team.members → st.nextId ∈ v.projects))
    ∧ (∃ st', addProjectJs st inputJs = Except.ok (st.nextId, st')
      ∧ st'.teams = st.teams ∧ st'.users = st.users) := by
  have htid : ∀ t : MTeam, (t.id == tid) = true →
      (({ t with projects := t.projects ++ [st.nextId] } : MTeam).id == tid) = true := by
    intro t h
    exact h
  constructor
  · have h000 : addProject000 st input
        = Except.ok (st.nextId, { users := st.users.map (fun v => if v.id ∈ team.members then { v with projects := v.projects ++ [st.nextId] } else v), teams := updateFirst (fun t => t.id == tid) (fun t => { t with projects := t.projects ++ [st.nextId] }) st.teams, projects := st.projects ++ [{ id := st.nextId, projectStatus := input.projectStatus, dateDue := input.dateDue, tasks := [], team := input.teamId.toList }], tasks := st.tasks, nextId := st.nextId + 1 }) := by
      simp only [addProject000, hin, ht]
    refine ⟨_, h000, ?_, ?_⟩
    · have hfind : findTeam (updateFirst (fun t => t.id == tid) (fun t => { t with projects := t.projects ++ [st.nextId] }) st.teams) tid = some { team with projects := team.projects ++ [st.nextId] } := by
        unfold findTeam
        rw [find?_updateFirst _ _ htid]
        unfold findTeam at ht
        rw [ht]
        rfl
      exact ⟨_, hfind, by simp⟩
    · intro v hv hmem
      rcases List.mem_map.mp hv with ⟨w, hw, hvw⟩
      by_cases hc : w.id ∈ team.members
      · rw [← hvw, if_pos hc]
        simp
      · rw [← hvw, if_neg hc] at hmem
        exact absurd hmem hc
  · exact ⟨_, rfl, rfl, rfl⟩

/-- Witness for C6: the amended theorem applied to a concrete store with a
two-member team 0 and fresh project id 3. -/
theorem addProject_propagation_amended_witness :
    (∃ st', addProject000 ⟨[⟨1, "a@b.c", "h", "Ada", "L", [], [], some 0⟩, ⟨2, "c@d.e", "h", "Bea", "M", [], [], some 0⟩], [⟨0, [1, 2], []⟩], [], [], 3⟩ ⟨"Created", "Jan 1 2025", some 0⟩ = Except.ok (3, st')
      ∧ (∃ t', findTeam st'.teams 0 = some t' ∧ 3 ∈ t'.projects)
      ∧ (∀ v ∈ st'.users, v.id ∈ (⟨0, [1, 2], []⟩ : MTeam).members → 3 ∈ v.projects))
    ∧ (∃ st', addProjectJs ⟨[⟨1, "a@b.c", "h", "Ada", "L", [], [], some 0⟩, ⟨2, "c@d.e", "h", "Bea", "M", [], [], some 0⟩], [⟨0, [1, 2], []⟩], [], [], 3⟩ ⟨"Created", "Jan 1 2025", [0], []⟩ = Except.ok (3, st')
      ∧ st'.teams = [⟨0, [1, 2], []⟩]
      ∧ st'.users = [⟨1, "a@b.c", "h", "Ada", "L", [], [], some 0⟩, ⟨2, "c@d.e", "h", "Bea", "M", [], [], some 0⟩]) :=
  addProject_propagation_amended
    ⟨[⟨1, "a@b.c", "h", "Ada", "L", [], [], some 0⟩, ⟨2, "c@d.e", "h", "Bea", "M", [], [], some 0⟩], [⟨0, [1, 2], []⟩], [], [], 3⟩
    ⟨"Created", "Jan 1 2025", some 0⟩ ⟨"Created", "Jan 1 2025", [0], []⟩ 0 ⟨0, [1, 2], []⟩
    rfl (by decide)

/-! ## Client dashboard aggregation (`MyOverview.jsx`)

The dashboard works on the logged-in user's populated project and task
lists.  `parseFormattedDate` turns a `"Mon D YYYY"` string into the local
midnight of that calendar day, and `today` is the current instant; since
every parsed date is a midnight, each comparison in the source
(`toDateString()` equality, `<`, `>`, `<=` on `Date` values) is equivalent
to the corresponding comparison of calendar-day ordinals, which is how due
dates are modelled here (`dateDue : Nat` is the parsed day ordinal). -/

/-- A project as consumed by the dashboard. -/
structure OProject where
  projectStatus : String
  dateDue : Nat
deriving DecidableEq

/-- A task as consumed by the dashboard. -/
structure OTask where
  taskStatus : String
  dateDue : Nat
deriving DecidableEq

/-- One step of the status-tally `reduce`:
`if (acc[status]) acc[status]++ else acc[status] = 1`.  The accumulator is
a JS object, modelled as an association list with unique keys; stored
counts are always at least 1, so a key is truthy exactly when present. -/
def bumpStatus (acc : List (String × Nat)) (s : String) : List (String × Nat) :=
  if (acc.lookup s).isSome then acc.map (fun q => if q.1 = s then (q.1, q.2 + 1) else q)
  else acc ++ [(s, 1)]

/-- The status→count mapping built by reducing over a status list. -/
def statusCounts (statuses : List String) : List (String × Nat) :=
  statuses.foldl bumpStatus []

/-- `projectStatusCounts`: tally of `project.projectStatus` values. -/
def projectStatusCounts (ps : List OProject) : List (String × Nat) :=
  statusCounts (ps.map (fun p => p.projectStatus))

/-- `taskStatusCounts`: tally of `task.taskStatus` values. -/
def taskStatusCounts (ts : List OTask) : List (String × Nat) :=
  statusCounts (ts.map (fun t => t.taskStatus))

/-- `totalProjectsCount = projectsData.user.projects.length`. -/
def totalProjectsCount (ps : List OProject) : Nat := ps.length

/-- `totalTasksCount = projectsData.user.tasks.length`. -/
def totalTasksCount (ts : List OTask) : Nat := ts.length

/-- `Object.keys` of a tally object. -/
def keysOf (acc : List (String × Nat)) : List String := acc.map Prod.fst

/-- The sum of the per-status counts of a tally object. -/
def valuesSum (acc : List (String × Nat)) : Nat := (acc.map Prod.snd).sum

/-- `acc[s]` read with a 0 default (`acc[s] || 0`). -/
def lookupD (acc : List (String × Nat)) (s : String) : Nat := (acc.lookup s).getD 0

theorem lookup_cons_pair (k : String) (v : Nat) (r : List (String × Nat)) (s : String) :
    ((k, v) :: r).lookup s = if s = k then some v else r.lookup s := by
  by_cases h : s = k
  · subst h
    simp [List.lookup]
  · have hb : (s == k) = false := beq_eq_false_iff_ne.mpr h
    simp [List.lookup, hb, h]

theorem keysOf_cons (k : String) (v : Nat) (r : List (String × Nat)) :
    keysOf ((k, v) :: r) = k :: keysOf r := rfl

theorem lookup_isSome_iff (acc : List (String × Nat)) (s : String) :
    (acc.lookup s).isSome = true ↔ s ∈ keysOf acc := by
  induction acc with
  | nil => simp [keysOf]
  | cons q t ih =>
      obtain ⟨k, v⟩ := q
      rw [lookup_cons_pair, keysOf_cons]
      by_cases h : s = k
      · subst h
        simp
      · simp [h, ih]

theorem lookupD_eq_zero_of_not_mem (acc : List (String × Nat)) (s : String)
    (h : s ∉ keysOf acc) : lookupD acc s = 0 := by
  unfold lookupD
  cases hl : acc.lookup s with
  | none => rfl
  | some v =>
      exact absurd ((lookup_isSome_iff acc s).mp (by rw [hl]; rfl)) h

theorem lookupD_cons (k : String) (v : Nat) (r : List (String × Nat)) (s : String) :
    lookupD ((k, v) :: r) s = if s = k then v else lookupD r s := by
  rw [lookupD, lookup_cons_pair]
  by_cases h : s = k
  · simp [h]
  · simp [h, lookupD]

theorem lookup_map_bump (acc : List (String × Nat)) (t s : String) :
    (acc.map (fun q => if q.1 = t then (q.1, q.2 + 1) else q)).lookup s
      = (acc.lookup s).map (fun v => if s = t then v + 1 else v) := by
  induction acc with
  | nil => rfl
  | cons q r ih =>
      obtain ⟨k, v⟩ := q
      rw [List.map_cons, lookup_cons_pair]
      by_cases hkt : k = t
      · subst hkt
        rw [show (if ((k, v) : String × Nat).1 = k then ((k, v).1, (k, v).2 + 1) else (k, v)) = (k, v + 1) from by simp]
        rw [lookup_cons_pair]
        by_cases hk : s = k
        · subst hk
          simp
        · simp [hk, ih]
      · rw [show (if ((k, v) : String × Nat).1 = t then ((k, v).1, (k, v).2 + 1) else (k, v)) = (k, v) from by simp [hkt]]
        rw [lookup_cons_pair]
        by_cases hk : s = k
        · subst hk
          simp [hkt]
        · simp [hk, ih]

theorem lookup_append_pairs (l₁ l₂ : List (String × Nat)) (s : String) :
    (l₁ ++ l₂).lookup s
      = match l₁.lookup s with | some v => some v | none => l₂.lookup s := by
  induction l₁ with
  | nil => rfl
  | cons q r ih =>
      obtain ⟨k, v⟩ := q
      rw [List.cons_append, lookup_cons_pair, lookup_cons_pair]
      by_cases hk : s = k
      · simp [hk]
      · simp [hk, ih]

theorem keysOf_bumpStatus (acc : List (String × Nat)) (s : String) :
    keysOf (bumpStatus acc s)
      = if (acc.lookup s).isSome then keysOf acc else keysOf acc ++ [s] := by
  unfold bumpStatus
  split
  · rename_i h
    unfold keysOf
    rw [List.map_map]
    apply List.map_congr_left
    intro q _
    by_cases hq : q.1 = s
    · simp [hq]
    · simp [hq]
  · rename_i h
    simp [keysOf]

theorem nodup_keys_bumpStatus (acc : List (String × Nat)) (s : String)
    (h : (keysOf acc).Nodup) : (keysOf (bumpStatus acc s)).Nodup := by
  rw [keysOf_bumpStatus]
  split
  · exact h
  · rename_i hl
    have hs : s ∉ keysOf acc := by
      intro hmem
      exact hl ((lookup_isSome_iff acc s).mpr hmem)
  /- append of a fresh singleton key keeps the key list duplicate-free -/
    simp [List.nodup_append, h, hs]

theorem valuesSum_map_bump (s : String) :
    ∀ acc : List (String × Nat), (keysOf acc).Nodup → s ∈ keysOf acc →
      valuesSum (acc.map (fun q => if q.1 = s then (q.1, q.2 + 1) else q))
        = valuesSum acc + 1 := by
  intro acc
  induction acc with
  | nil =>
      intro _ hmem
      simp [keysOf] at hmem
  | cons q r ih =>
      intro h hmem
      obtain ⟨k, v⟩ := q
      rw [keysOf, List.map_cons] at h hmem
      have hNod : (keysOf r).Nodup := (List.nodup_cons.mp h).2
      rw [List.map_cons]
      by_cases hk : k = s
      · subst hk
        have hkr : k ∉ keysOf r := (List.nodup_cons.mp h).1
        have hid : r.map (fun q => if q.1 = k then (q.1, q.2 + 1) else q) = r := by
          have hfix : ∀ q ∈ r, (if q.1 = k then (q.1, q.2 + 1) else q) = q := by
            intro q hq
            have hne : q.1 ≠ k := fun he => hkr (he ▸ List.mem_map_of_mem Prod.fst hq)
            simp [hne]
          rw [List.map_congr_left hfix]
          simp
        rw [hid]
        simp [valuesSum]
        omega
      · have hmem' : s ∈ keysOf r := by
          rcases List.mem_cons.mp hmem with h1 | h2
          · exact absurd h1.symm hk
          · exact h2
        have hne : ((k, v) : String × Nat).1 = s ↔ False := by simpa using hk
        rw [if_neg (by simpa using hk)]
        have hr := ih hNod hmem'
        simp [valuesSum] at hr ⊢
        omega

theorem valuesSum_bumpStatus (acc : List (String × Nat)) (s : String)
    (h : (keysOf acc).Nodup) : valuesSum (bumpStatus acc s) = valuesSum acc + 1 := by
  unfold bumpStatus
  split
  · rename_i hl
    exact valuesSum_map_bump s acc h ((lookup_isSome_iff acc s).mp hl)
  · simp [valuesSum]

theorem lookupD_bumpStatus (acc : List (String × Nat)) (t s : String) :
    lookupD (bumpStatus acc t) s = lookupD acc s + (if s = t then 1 else 0) := by
  unfold bumpStatus
  split
  · rename_i hl
    unfold lookupD
    rw [lookup_map_bump]
    cases hx : acc.lookup s with
    | none =>
        by_cases hst : s = t
        · subst hst
          rw [hx] at hl
          simp at hl
        · simp [hst]
    | some v =>
        by_cases hst : s = t
        · subst hst
          simp
        · simp [hst]
  · rename_i hl
    unfold lookupD
    rw [lookup_append_pairs]
    cases hx : acc.lookup s with
    | none =>
        by_cases hst : s = t
        · subst hst
          simp [List.lookup]
        · have hb : (s == t) = false := beq_eq_false_iff_ne.mpr hst
          simp [List.lookup, hb, hst]
    | some v =>
        by_cases hst : s = t
        · subst hst
          rw [hx] at hl
          simp at hl
        · simp [hst]

theorem statusCounts_foldl_invariant (l : List String) :
    ∀ acc : List (String × Nat), (keysOf acc).Nodup →
      (keysOf (l.foldl bumpStatus acc)).Nodup
      ∧ valuesSum (l.foldl bumpStatus acc) = valuesSum acc + l.length
      ∧ ∀ s, lookupD (l.foldl bumpStatus acc) s = lookupD acc s + l.count s := by
  induction l with
  | nil =>
      intro acc h
      simp [h]
  | cons x r ih =>
      intro acc h
      rw [List.foldl_cons]
      have hb : (keysOf (bumpStatus acc x)).Nodup := nodup_keys_bumpStatus acc x h
      obtain ⟨ih1, ih2, ih3⟩ := ih (bumpStatus acc x) hb
      refine ⟨ih1, ?_, ?_⟩
      · rw [ih2, valuesSum_bumpStatus acc x h]
        simp
        omega
      · intro s
        rw [ih3 s, lookupD_bumpStatus acc x s, List.count_cons]
        by_cases hsx : s = x
        · subst hsx
          simp
          omega
        · have : (x == s) = false := by simp [beq_iff_eq]; exact fun he => hsx he.symm
          simp [hsx, this]

/-- Claim C7: the status-tally aggregation is a total partition — for every
project list and every task list, the per-status counts sum to the list
length, and the reported totals equal the list lengths. -/
theorem statusCounts_partition (ps : List OProject) (ts : List OTask) :
    valuesSum (projectStatusCounts ps) = ps.length
    ∧ valuesSum (taskStatusCounts ts) = ts.length
    ∧ totalProjectsCount ps = ps.length
    ∧ totalTasksCount ts = ts.length := by
  have hp := (statusCounts_foldl_invariant (ps.map (fun p => p.projectStatus)) [] (by simp [keysOf])).2.1
  have ht := (statusCounts_foldl_invariant (ts.map (fun t => t.taskStatus)) [] (by simp [keysOf])).2.1
  refine ⟨?_, ?_, rfl, rfl⟩
  · rw [projectStatusCounts, statusCounts, hp]
    simp [valuesSum]
  · rw [taskStatusCounts, statusCounts, ht]
    simp [valuesSum]

/-- `completedTasksCount = taskStatusCounts.Completed || 0`. -/
def completedTasksCount (ts : List OTask) : Nat :=
  lookupD (taskStatusCounts ts) "Completed"

/-- `incompleteTasksCount`: sum the tallies of every status key other than
`"Completed"` (`Object.keys(...).filter(s => s !== "Completed").reduce(...)`). -/
def incompleteTasksCount (ts : List OTask) : Nat :=
  ((keysOf (taskStatusCounts ts)).filter (fun s => s != "Completed")).foldl
    (fun a s => a + lookupD (taskStatusCounts ts) s) 0

theorem foldl_add_eq_sum (f : String → Nat) (l : List String) :
    ∀ init : Nat, l.foldl (fun a s => a + f s) init = init + (l.map f).sum := by
  induction l with
  | nil =>
      intro init
      simp
  | cons x r ih =>
      intro init
      rw [List.foldl_cons, ih (init + f x), List.map_cons, List.sum_cons]
      omega

theorem filtered_keys_sum (C : String) :
    ∀ counts : List (String × Nat), (keysOf counts).Nodup →
      (((keysOf counts).filter (fun s => s != C)).map (lookupD counts)).sum
        + lookupD counts C = valuesSum counts := by
  intro counts
  induction counts with
  | nil =>
      intro _
      simp [keysOf, lookupD, valuesSum]
  | cons q r ih =>
      intro h
      obtain ⟨k, v⟩ := q
      rw [keysOf_cons] at h ⊢
      have hkr : k ∉ keysOf r := (List.nodup_cons.mp h).1
      have hNod : (keysOf r).Nodup := (List.nodup_cons.mp h).2
      have hcongr : ((keysOf r).filter (fun s => s != C)).map (lookupD ((k, v) :: r))
          = ((keysOf r).filter (fun s => s != C)).map (lookupD r) := by
        apply List.map_congr_left
        intro s hs
        have hsr : s ∈ keysOf r := List.mem_of_mem_filter hs
        have hsk : s ≠ k := fun he => hkr (he ▸ hsr)
        rw [lookupD_cons, if_neg hsk]
      have hvs : valuesSum ((k, v) :: r) = v + valuesSum r := by
        simp [valuesSum]
      by_cases hkC : k = C
      · subst hkC
        rw [show (List.filter (fun s => s != k) (k :: keysOf r))
            = (keysOf r).filter (fun s => s != k) from by simp [List.filter]]
        rw [hcongr, lookupD_cons, if_pos rfl, hvs]
        have hr := ih hNod
        rw [lookupD_eq_zero_of_not_mem r k hkr] at hr
        omega
      · rw [show (List.filter (fun s => s != C) (k :: keysOf r))
            = k :: (keysOf r).filter (fun s => s != C) from by simp [List.filter, bne_iff_ne.mpr hkC]]
        rw [List.map_cons, List.sum_cons, hcongr, lookupD_cons, if_pos rfl]
        rw [lookupD_cons, if_neg (fun he => hkC he.symm), hvs]
        have hr := ih hNod
        omega

/-- Claim C8: the incomplete-task count (sum of the tallies of all statuses
other than "Completed") equals the total number of tasks minus the number
of tasks whose status is "Completed"; and the completed tally itself counts
exactly the tasks with status "Completed". -/
theorem incomplete_eq_total_sub_completed (ts : List OTask) :
    completedTasksCount ts = ts.countP (fun t => t.taskStatus == "Completed")
    ∧ incompleteTasksCount ts
        = totalTasksCount ts - ts.countP (fun t => t.taskStatus == "Completed") := by
  obtain ⟨hnd, hsum, hlook⟩ :=
    statusCounts_foldl_invariant (ts.map (fun t => t.taskStatus)) [] (by simp [keysOf])
  have hcompleted : completedTasksCount ts
      = ts.countP (fun t => t.taskStatus == "Completed") := by
    rw [completedTasksCount, taskStatusCounts, statusCounts, hlook "Completed"]
    rw [show lookupD [] "Completed" = 0 from rfl]
    rw [List.count, List.countP_map]
    simp only [Nat.zero_add, lookupD]
    congr 1
  refine ⟨hcompleted, ?_⟩
  have hfil := filtered_keys_sum "Completed" (taskStatusCounts ts)
    (by rw [taskStatusCounts, statusCounts]; exact hnd)
  have hvs : valuesSum (taskStatusCounts ts) = ts.length := by
    rw [taskStatusCounts, statusCounts, hsum]
    simp [valuesSum]
  rw [incompleteTasksCount, foldl_add_eq_sum]
  have hcomp' : lookupD (taskStatusCounts ts) "Completed"
      = ts.countP (fun t => t.taskStatus == "Completed") := hcompleted
  rw [hvs, hcomp'] at hfil
  rw [totalTasksCount]
  omega

/-! ## Nearest upcoming due date

The selection logic is written twice in the source (once for projects,
once for tasks) with identical bodies; it is modelled once, generically in
the record type and its due-date accessor, and instantiated for both. -/

/-- One step of the `reduce` that scans for the closest due date:
return the current record if it is due today; otherwise seed a missing
accumulator with the current record; otherwise replace the accumulator
when the current record is strictly future and either earlier than the
accumulator or the accumulator is not in the future. -/
def closestStep (dueOf : α → Nat) (today : Nat) (closest : Option α) (current : α) :
    Option α :=
  if dueOf current = today then some current
  else
    match closest with
    | none => some current
    | some c =>
        if today < dueOf current ∧ (dueOf current < dueOf c ∨ dueOf c ≤ today) then some current
        else some c

/-- The closest-due-date `reduce`, started from `null`. -/
def closestDueDate (dueOf : α → Nat) (today : Nat) (rs : List α) : Option α :=
  rs.foldl (closestStep dueOf today) none

/-- `some(record => record due today)`. -/
def hasDueDateToday (dueOf : α → Nat) (today : Nat) (rs : List α) : Bool :=
  rs.any (fun r => dueOf r == today)

/-- The record whose due date the dashboard reports: the first record due
today when one exists, otherwise the result of the closest-due-date scan. -/
def recToReturn (dueOf : α → Nat) (today : Nat) (rs : List α) : Option α :=
  if hasDueDateToday dueOf today rs then rs.find? (fun r => dueOf r == today)
  else closestDueDate dueOf today rs

/-- What the dashboard renders for the selected record: `"TODAY"`, the
record's date string, or `"No upcoming due date"`. -/
inductive DueDisplay where
  | todayDue
  | onDay (d : Nat)
  | noUpcoming
deriving DecidableEq

/-- The rendering ternary of the due-date card. -/
def dueDisplay (dueOf : α → Nat) (today : Nat) (rs : List α) : DueDisplay :=
  match recToReturn dueOf today rs with
  | none => .noUpcoming
  | some r => if dueOf r = today then .todayDue else .onDay (dueOf r)

/-- `closestDueDateProject` of the source, on parsed day ordinals. -/
def closestDueDateProject (today : Nat) (ps : List OProject) : Option OProject :=
  closestDueDate OProject.dateDue today ps

/-- The closest-due-date scan inside the source's `taskToReturn`. -/
def closestDueDateTask (today : Nat) (ts : List OTask) : Option OTask :=
  closestDueDate OTask.dateDue today ts

/-- `projectToReturn` of the source. -/
def projectToReturn (today : Nat) (ps : List OProject) : Option OProject :=
  recToReturn OProject.dateDue today ps

/-- `taskToReturn()` of the source. -/
def taskToReturn (today : Nat) (ts : List OTask) : Option OTask :=
  recToReturn OTask.dateDue today ts

/-- The rendered project due-date line. -/
def projectDueDisplay (today : Nat) (ps : List OProject) : DueDisplay :=
  dueDisplay OProject.dateDue today ps

/-- The rendered task due-date line. -/
def taskDueDisplay (today : Nat) (ts : List OTask) : DueDisplay :=
  dueDisplay OTask.dateDue today ts

/-- The two-record comparison made by `closestStep` once the accumulator is
present and the current record is not due today. -/
def betterDue (dueOf : α → Nat) (today : Nat) (c cur : α) : α :=
  if today < dueOf cur ∧ (dueOf cur < dueOf c ∨ dueOf c ≤ today) then cur else c

theorem closestStep_none (dueOf : α → Nat) (today : Nat) (cur : α) :
    closestStep dueOf today none cur = some cur := by
  unfold closestStep
  split
  · rfl
  · rfl

theorem closestStep_some (dueOf : α → Nat) (today : Nat) (c cur : α) :
    closestStep dueOf today (some c) cur
      = if dueOf cur = today then some cur
        else if today < dueOf cur ∧ (dueOf cur < dueOf c ∨ dueOf c ≤ today) then some cur
        else some c := rfl

theorem closestStep_eq_better (dueOf : α → Nat) (today : Nat) (c cur : α)
    (h : dueOf cur ≠ today) :
    closestStep dueOf today (some c) cur = some (betterDue dueOf today c cur) := by
  rw [closestStep_some, if_neg h, betterDue]
  by_cases h2 : today < dueOf cur ∧ (dueOf cur < dueOf c ∨ dueOf c ≤ today)
  · rw [if_pos h2, if_pos h2]
  · rw [if_neg h2, if_neg h2]

theorem closestStep_some_cases (dueOf : α → Nat) (today : Nat) (c cur : α) :
    closestStep dueOf today (some c) cur = some cur
    ∨ closestStep dueOf today (some c) cur = some c := by
  rw [closestStep_some]
  by_cases h1 : dueOf cur = today
  · rw [if_pos h1]
    exact Or.inl rfl
  · rw [if_neg h1]
    by_cases h2 : today < dueOf cur ∧ (dueOf cur < dueOf c ∨ dueOf c ≤ today)
    · rw [if_pos h2]
      exact Or.inl rfl
    · rw [if_neg h2]
      exact Or.inr rfl

theorem foldl_closestStep_some_ex (dueOf : α → Nat) (today : Nat) :
    ∀ (l : List α) (c : α), ∃ d, l.foldl (closestStep dueOf today) (some c) = some d := by
  intro l
  induction l with
  | nil =>
      intro c
      exact ⟨c, rfl⟩
  | cons x r ih =>
      intro c
      rw [List.foldl_cons]
      rcases closestStep_some_cases dueOf today c x with h | h <;> rw [h]
      · exact ih x
      · exact ih c

theorem foldl_closestStep_eq_better (dueOf : α → Nat) (today : Nat) :
    ∀ (l : List α) (c : α), (∀ r ∈ l, dueOf r ≠ today) →
      l.foldl (closestStep dueOf today) (some c)
        = some (l.foldl (betterDue dueOf today) c) := by
  intro l
  induction l with
  | nil =>
      intro c _
      rfl
  | cons x r ih =>
      intro c hno
      rw [List.foldl_cons, List.foldl_cons,
        closestStep_eq_better dueOf today c x (hno x (by simp))]
      exact ih _ (fun s hs => hno s (by simp [hs]))

theorem foldl_better_all_past (dueOf : α → Nat) (today : Nat) :
    ∀ (l : List α) (c : α), (∀ r ∈ l, ¬ today < dueOf r) →
      l.foldl (betterDue dueOf today) c = c := by
  intro l
  induction l with
  | nil =>
      intro c _
      rfl
  | cons x r ih =>
      intro c hpast
      rw [List.foldl_cons,
        show betterDue dueOf today c x = c from if_neg (fun hc => hpast x (by simp) hc.1)]
      exact ih c (fun s hs => hpast s (by simp [hs]))

theorem hasDueDateToday_eq_true_iff (dueOf : α → Nat) (today : Nat) (rs : List α) :
    hasDueDateToday dueOf today rs = true ↔ ∃ r ∈ rs, dueOf r = today := by
  simp [hasDueDateToday, List.any_eq_true]

theorem find?_today_split (dueOf : α → Nat) (today : Nat) :
    ∀ rs : List α, (∃ r ∈ rs, dueOf r = today) →
      ∃ l₁ r l₂, rs = l₁ ++ r :: l₂ ∧ dueOf r = today ∧ (∀ x ∈ l₁, dueOf x ≠ today)
        ∧ rs.find? (fun r => dueOf r == today) = some r := by
  intro rs
  induction rs with
  | nil =>
      rintro ⟨r, hr, _⟩
      simp at hr
  | cons x t ih =>
      intro hex
      by_cases hx : dueOf x = today
      · refine ⟨[], x, t, rfl, hx, by simp, ?_⟩
        rw [List.find?_cons_of_pos _ (by simp [hx])]
      · have hex' : ∃ r ∈ t, dueOf r = today := by
          rcases hex with ⟨r, hr, hrt⟩
          rcases List.mem_cons.mp hr with rfl | h2
          · exact absurd hrt hx
          · exact ⟨r, h2, hrt⟩
        obtain ⟨l₁, r, l₂, hsp, hrt, hbef, hfind⟩ := ih hex'
        refine ⟨x :: l₁, r, l₂, by rw [hsp]; rfl, hrt, ?_, ?_⟩
        · intro y hy
          rcases List.mem_cons.mp hy with rfl | h2
          · exact hx
          · exact hbef y h2
        · rw [List.find?_cons_of_neg _ (by simp [hx]), hfind]

/-- Characterization of the closest-due-date fold when a strictly-future
record exists among the accumulator seed and the remaining records: the
result is the first record attaining the minimal strictly-future due date
(records before it that are future are strictly worse, records after it
that are future are no better). -/
theorem foldl_better_split (dueOf : α → Nat) (today : Nat) :
    ∀ (l : List α) (c : α), (today < dueOf c ∨ ∃ r ∈ l, today < dueOf r) →
      ∃ l₁ g l₂, c :: l = l₁ ++ g :: l₂
        ∧ today < dueOf g
        ∧ (∀ x ∈ l₁, today < dueOf x → dueOf g < dueOf x)
        ∧ (∀ x ∈ l₂, today < dueOf x → dueOf g ≤ dueOf x)
        ∧ l.foldl (betterDue dueOf today) c = g := by
  intro l
  induction l with
  | nil =>
      intro c hfut
      rcases hfut with hc | ⟨r, hr, _⟩
      · exact ⟨[], c, [], rfl, hc, by simp, by simp, rfl⟩
      · simp at hr
  | cons x r ih =>
      intro c hfut
      rw [List.foldl_cons]
      by_cases hcond : today < dueOf x ∧ (dueOf x < dueOf c ∨ dueOf c ≤ today)
      · have hc' : betterDue dueOf today c x = x := if_pos hcond
        rw [hc']
        obtain ⟨l₁', g, l₂', hsplit, hg, hbefore, hafter, hfold⟩ :=
          ih x (Or.inl hcond.1)
        cases l₁' with
        | nil =>
            rw [List.nil_append] at hsplit
            injection hsplit with h1 h2
            refine ⟨[c], g, l₂', ?_, hg, ?_, hafter, hfold⟩
            · rw [List.singleton_append, ← h1, ← h2]
            · intro y hy hyf
              rw [List.mem_singleton] at hy
              subst hy
              rcases hcond.2 with hlt | hle
              · exact h1 ▸ hlt
              · exact absurd hyf (Nat.not_lt.mpr hle)
        | cons a t₁ =>
            rw [List.cons_append] at hsplit
            injection hsplit with h1 h2
            subst h1
            refine ⟨c :: x :: t₁, g, l₂', ?_, hg, ?_, hafter, hfold⟩
            · rw [h2]
              rfl
            · intro y hy hyf
              rcases List.mem_cons.mp hy with rfl | hy2
              · have hgx : dueOf g < dueOf x := hbefore x (by simp) hcond.1
                rcases hcond.2 with hlt | hle
                · exact Nat.lt_trans hgx hlt
                · exact absurd hyf (Nat.not_lt.mpr hle)
              · exact hbefore y hy2 hyf
      · have hc' : betterDue dueOf today c x = c := if_neg hcond
        rw [hc']
        have hfut' : today < dueOf c ∨ ∃ s ∈ r, today < dueOf s := by
          rcases hfut with hc | ⟨s, hs, hsf⟩
          · exact Or.inl hc
          · rcases List.mem_cons.mp hs with rfl | hs2
            · left
              by_contra hnc
              exact hcond ⟨hsf, Or.inr (Nat.not_lt.mp hnc)⟩
            · exact Or.inr ⟨s, hs2, hsf⟩
        obtain ⟨l₁', g, l₂', hsplit, hg, hbefore, hafter, hfold⟩ := ih c hfut'
        cases l₁' with
        | nil =>
            rw [List.nil_append] at hsplit
            injection hsplit with h1 h2
            refine ⟨[], g, x :: l₂', ?_, hg, by simp, ?_, hfold⟩
            · rw [List.nil_append, ← h1, ← h2]
            · intro y hy hyf
              rcases List.mem_cons.mp hy with rfl | hy2
              · subst h1
                by_contra hgt
                exact hcond ⟨hyf, Or.inl (Nat.lt_of_not_le (fun hle => hgt hle))⟩
              · exact hafter y hy2 hyf
        | cons a t₁ =>
            rw [List.cons_append] at hsplit
            injection hsplit with h1 h2
            subst h1
            refine ⟨c :: x :: t₁, g, l₂', ?_, hg, ?_, hafter, hfold⟩
            · rw [h2]
              rfl
            · intro y hy hyf
              rcases List.mem_cons.mp hy with rfl | hy2
              · exact hbefore y (by simp) hyf
              · rcases List.mem_cons.mp hy2 with rfl | hy3
                · have hcy : today < dueOf c := by
                    by_contra hnc
                    exact hcond ⟨hyf, Or.inr (Nat.not_lt.mp hnc)⟩
                  have hcx : dueOf c ≤ dueOf y := by
                    by_contra hgt
                    exact hcond ⟨hyf, Or.inl (Nat.lt_of_not_le hgt)⟩
                  exact Nat.lt_of_lt_of_le (hbefore c (by simp) hcy) hcx
                · exact hbefore y (List.mem_cons_of_mem c hy3) hyf

theorem hasDueDateToday_eq_false (dueOf : α → Nat) (today : Nat) (rs : List α)
    (hno : ∀ r ∈ rs, dueOf r ≠ today) : hasDueDateToday dueOf today rs = false := by
  cases hb : hasDueDateToday dueOf today rs
  · rfl
  · obtain ⟨r, hr, he⟩ := (hasDueDateToday_eq_true_iff dueOf today rs).mp hb
    exact absurd he (hno r hr)

/-- Counterexample to C4: on a non-empty list whose only record is past due
(due day 5, today being day 10), the dashboard renders that record's date,
not "No upcoming due date" — even though no record is due strictly after
today. -/
theorem dueDate_no_future_counterexample :
    taskDueDisplay 10 [⟨"Created", 5⟩] = DueDisplay.onDay 5
    ∧ taskDueDisplay 10 [⟨"Created", 5⟩] ≠ DueDisplay.noUpcoming
    ∧ (∀ t ∈ [(⟨"Created", 5⟩ : OTask)], ¬ 10 < t.dateDue) := by
  refine ⟨by decide, by decide, by decide⟩

/-- Claim C4 (amended): for the nearest-due-date selection (shared logic of
the project and task scans): a record due today is selected (the first
such); otherwise, when a strictly-future record exists, the first record
attaining the minimal strictly-future due date is selected; when the list
is non-empty but has no today or future record, the FIRST record is
selected and its (past) date is displayed; "No upcoming due date" is
rendered exactly for the empty list. -/
theorem dueDate_selection_amended (dueOf : α → Nat) (today : Nat) (rs : List α) :
    ((∃ r ∈ rs, dueOf r = today) →
      ∃ l₁ r l₂, rs = l₁ ++ r :: l₂ ∧ dueOf r = today ∧ (∀ x ∈ l₁, dueOf x ≠ today)
        ∧ recToReturn dueOf today rs = some r)
    ∧ ((∀ r ∈ rs, dueOf r ≠ today) → (∃ r ∈ rs, today < dueOf r) →
      ∃ l₁ g l₂, rs = l₁ ++ g :: l₂ ∧ today < dueOf g
        ∧ (∀ x ∈ l₁, today < dueOf x → dueOf g < dueOf x)
        ∧ (∀ x ∈ l₂, today < dueOf x → dueOf g ≤ dueOf x)
        ∧ recToReturn dueOf today rs = some g)
    ∧ ((∀ r ∈ rs, dueOf r < today) →
      recToReturn dueOf today rs = rs.head?
      ∧ ∀ r₀, rs.head? = some r₀ → dueDisplay dueOf today rs = DueDisplay.onDay (dueOf r₀))
    ∧ (recToReturn dueOf today rs = none ↔ rs = []) := by
  refine ⟨?_, ?_, ?_, ?_⟩
  · intro hex
    have htrue : hasDueDateToday dueOf today rs = true :=
      (hasDueDateToday_eq_true_iff dueOf today rs).mpr hex
    obtain ⟨l₁, r, l₂, hsp, hrt, hbef, hfind⟩ := find?_today_split dueOf today rs hex
    refine ⟨l₁, r, l₂, hsp, hrt, hbef, ?_⟩
    rw [recToReturn, htrue]
    simpa using hfind
  · intro hno hfut
    have hfalse := hasDueDateToday_eq_false dueOf today rs hno
    cases rs with
    | nil =>
        obtain ⟨r, hr, _⟩ := hfut
        simp at hr
    | cons r₀ rest =>
        have hstep : closestDueDate dueOf today (r₀ :: rest)
            = some (rest.foldl (betterDue dueOf today) r₀) := by
          rw [closestDueDate, List.foldl_cons, closestStep_none]
          exact foldl_closestStep_eq_better dueOf today rest r₀
            (fun s hs => hno s (List.mem_cons_of_mem r₀ hs))
        have hfut' : today < dueOf r₀ ∨ ∃ s ∈ rest, today < dueOf s := by
          obtain ⟨r, hr, hrf⟩ := hfut
          rcases List.mem_cons.mp hr with rfl | h2
          · exact Or.inl hrf
          · exact Or.inr ⟨r, h2, hrf⟩
        obtain ⟨l₁, g, l₂, hsp, hg, hbef, haft, hfold⟩ :=
          foldl_better_split dueOf today rest r₀ hfut'
        refine ⟨l₁, g, l₂, hsp, hg, hbef, haft, ?_⟩
        rw [recToReturn, hfalse]
        simp only [Bool.false_eq_true, if_false]
        rw [hstep, hfold]
  · intro hpast
    have hno : ∀ r ∈ rs, dueOf r ≠ today := fun r hr => Nat.ne_of_lt (hpast r hr)
    have hfalse := hasDueDateToday_eq_false dueOf today rs hno
    cases rs with
    | nil =>
        refine ⟨rfl, ?_⟩
        intro r₀ h
        simp at h
    | cons r₀ rest =>
        have hsel : recToReturn dueOf today (r₀ :: rest) = some r₀ := by
          rw [recToReturn, hfalse]
          simp only [Bool.false_eq_true, if_false]
          rw [closestDueDate, List.foldl_cons, closestStep_none,
            foldl_closestStep_eq_better dueOf today rest r₀
              (fun s hs => hno s (List.mem_cons_of_mem r₀ hs)),
            foldl_better_all_past dueOf today rest r₀
              (fun s hs hf => Nat.lt_asymm (hpast s (List.mem_cons_of_mem r₀ hs)) hf)]
        refine ⟨by rw [hsel]; rfl, ?_⟩
        intro r₁ hh
        rw [List.head?_cons] at hh
        injection hh with h1
        subst h1
        unfold dueDisplay
        rw [hsel]
        simp only
        rw [if_neg (Nat.ne_of_lt (hpast r₀ (by simp)))]
  · constructor
    · intro hnone
      cases rs with
      | nil => rfl
      | cons r₀ rest =>
          exfalso
          rw [recToReturn] at hnone
          by_cases hb : hasDueDateToday dueOf today (r₀ :: rest) = true
          · rw [hb] at hnone
            simp only [if_true] at hnone
            obtain ⟨r, hr, he⟩ := (hasDueDateToday_eq_true_iff dueOf today _).mp hb
            obtain ⟨l₁, r', l₂, _, _, _, hfind⟩ :=
              find?_today_split dueOf today (r₀ :: rest) ⟨r, hr, he⟩
            rw [hfind] at hnone
            exact Option.noConfusion hnone
          · have hb' : hasDueDateToday dueOf today (r₀ :: rest) = false :=
              Bool.not_eq_true _ ▸ hb
            rw [hb'] at hnone
            simp only [Bool.false_eq_true, if_false] at hnone
            rw [closestDueDate, List.foldl_cons, closestStep_none] at hnone
            obtain ⟨d, hd⟩ := foldl_closestStep_some_ex dueOf today rest r₀
            rw [hd] at hnone
            exact Option.noConfusion hnone
    · intro h
      subst h
      rfl

/-- Witness for C4: the amended theorem's future-scan clause applied to a
concrete list with a past record (day 3) and a future record (day 20),
today being day 10. -/
theorem dueDate_selection_amended_witness :
    ∃ l₁ g l₂, [(⟨"Created", 3⟩ : OTask), ⟨"Created", 20⟩] = l₁ ++ g :: l₂
      ∧ 10 < OTask.dateDue g
      ∧ (∀ x ∈ l₁, 10 < OTask.dateDue x → OTask.dateDue g < OTask.dateDue x)
      ∧ (∀ x ∈ l₂, 10 < OTask.dateDue x → OTask.dateDue g ≤ OTask.dateDue x)
      ∧ recToReturn OTask.dateDue 10 [⟨"Created", 3⟩, ⟨"Created", 20⟩] = some g :=
  (dueDate_selection_amended OTask.dateDue 10 [⟨"Created", 3⟩, ⟨"Created", 20⟩]).2.1
    (by decide) (by decide)

end WebPulse
